import Mathlib

/-!
Verification of the `dynhttpsrv` package (a dynamically reconfigurable HTTP
server built around an atomically swappable routing table).

The Go source is shallowly embedded as follows.

* A compiled routing table (`mux.Router` together with the sequence of route
  registrations performed on it) is modelled as the list of registered routes,
  in registration order.  The path/method matching algorithm itself is external
  (gorilla/mux); it is modelled by first-match-in-registration-order over the
  registered routes (`routeTable`), which is only used as an opaque
  "the table's matching logic" in the theorems.
* An `Endpoint` value keeps its three fields; Go nil-vs-non-nil slices become
  `Option (List String)`.  Endpoint identity in the source is pointer identity
  (`existingEndpoint == endpoint` compares `*Endpoint` pointers), so registry
  entries are modelled as abstract addresses (`Nat`) and the pointed-to values
  are supplied by a heap function `Nat → Endpoint`.
* The `swappableRouter` mutex protects exactly the copy of the `router`
  reference in `swap` (lines 26-30) and `ServeHTTP` (lines 32-37); both
  critical sections are therefore single atomic events.  Concurrency is
  modelled by interleaving those atomic events: a dispatch whose (atomic) read
  happens after `k` of the swap events captures the table produced by the
  first `k` swaps.
* `DynHttpSrv` methods mutate the receiver in place and return an `error`; the
  embedding returns the new state, the error (`Option String`) and the list of
  tables passed to `swap` during the call (the swap trace), so that "triggers
  a rebuild exactly once" and "never triggers a rebuild" are statable.
-/

/-- One route registration on a `mux.Router`.  `preRoute pre ms h` is
`router.PathPrefix(pre).HandlerFunc(h)` (with `.Methods(ms...)` when
`ms = some _`); `pathRoute p ms h` is `router.HandleFunc(p, h)` (with
`.Methods(ms...)` when `ms = some _`).  Handlers are opaque and identified by
a `Nat`. -/
inductive Route where
  | preRoute (pre : String) (methods : Option (List String)) (handler : Nat)
  | pathRoute (path : String) (methods : Option (List String)) (handler : Nat)
deriving DecidableEq, Repr

/-- A compiled routing table: the routes registered on one `mux.Router`, in
registration order. -/
abbrev RoutingTable := List Route

/-- An HTTP request, reduced to the parts routing can look at. -/
structure Request where
  method : String
  path : String
deriving DecidableEq, Repr

/-- Does `s` start with `p`?  (Model of mux prefix matching for
`PathPrefix`.) -/
def strHasPre (p s : String) : Bool :=
  s.take p.length == p

/-- A `nil` methods slice matches any method; a non-nil one matches the listed
methods. -/
def methodAllowed : Option (List String) → String → Bool
  | none, _ => true
  | some ms, m => ms.contains m

def routeMatches (method path : String) : Route → Bool
  | .preRoute pre ms _ => strHasPre pre path && methodAllowed ms method
  | .pathRoute p ms _ => p == path && methodAllowed ms method

def routeHandler : Route → Nat
  | .preRoute _ _ h => h
  | .pathRoute _ _ h => h

/-- Model of the external matching capability: the first registered route that
matches wins; `none` is the delegated 404. -/
def routeTable (t : RoutingTable) (req : Request) : Option Nat :=
  (t.find? (routeMatches req.method req.path)).map routeHandler

/-- The `swappableRouter` struct (source lines 14-17).  The mutex is not state;
it only makes the reference copy in `swap`/`ServeHTTP` atomic, which the
interleaving model below accounts for. -/
structure SwappableRouter where
  router : RoutingTable
deriving DecidableEq, Repr

/-- `swappableRouter.swap` (lines 26-30): installs the new router as current. -/
def swap (sr : SwappableRouter) (newRouter : RoutingTable) : SwappableRouter :=
  { sr with router := newRouter }

/-- `swappableRouter.ServeHTTP` (lines 32-37): copy the current reference once
under the lock, then delegate to it. -/
def serveHTTP (sr : SwappableRouter) (r : Request) : Option Nat :=
  let router := sr.router
  routeTable router r

/-- `ServeHTTP` against a source of reads: `reads i` is the table the shared
reference holds at the i-th lock acquisition the body would perform.  The body
(lines 33-36) acquires the lock once, so only `reads 0` is consumed. -/
def serveHTTPReads (reads : Nat → RoutingTable) (r : Request) : Option Nat :=
  let router := reads 0
  routeTable router r

/-- The table held by the shared reference after a sequence of (atomic) `swap`
events, starting from `init`. -/
def tableAfterSwaps (init : RoutingTable) (swaps : List RoutingTable) : RoutingTable :=
  swaps.foldl (fun _ newRouter => newRouter) init

/-- The table captured by a dispatch whose atomic read interleaves after the
first `k` swap events of `swaps`. -/
def capturedTable (init : RoutingTable) (swaps : List RoutingTable) (k : Nat) : RoutingTable :=
  tableAfterSwaps init (swaps.take k)

/-- The `Endpoint` struct (lines 39-43).  `Methods`/`Paths` are Go slices whose
nil-ness is significant, hence `Option`; the handler is opaque. -/
structure Endpoint where
  methods : Option (List String)
  paths : Option (List String)
  handler : Nat
deriving DecidableEq, Repr

/-- The `DynHttpSrv` struct (lines 45-48): the swappable router's current
table, and the endpoint list as a list of `*Endpoint` addresses. -/
structure DynHttpSrv where
  router : RoutingTable
  endpoints : List Nat
deriving DecidableEq, Repr

/-- The state `New` returns (lines 75-78): fresh empty router, empty endpoint
list.  (The network goroutines of `New` are out of scope.) -/
def newSrv : DynHttpSrv :=
  { router := [], endpoints := [] }

/-- The search loop shared by `AddEndpoint` and `DelEndpoint`
(lines 82-88 and 98-104): scan for pointer equality, recording the index of
the first hit in `pos`, which stays `-1` on a miss.  `i` is the loop index. -/
def findPosAux : List Nat → Nat → Nat → Int
  | [], _, _ => -1
  | x :: xs, e, i => if x = e then Int.ofNat i else findPosAux xs e (i + 1)

def findPos (eps : List Nat) (e : Nat) : Int :=
  findPosAux eps e 0

/-- The body of the `for` loop of `reloadEndpoints` (lines 116-130) for one
endpoint: appends that endpoint's route registrations to the router under
construction. -/
def addEndpointRoutes (r : RoutingTable) (e : Endpoint) : RoutingTable :=
  match e.paths with
  | none =>
    match e.methods with
    | none => r ++ [Route.preRoute "/" none e.handler]
    | some ms => r ++ [Route.preRoute "/" (some ms) e.handler]
  | some ps =>
    ps.foldl (fun r path =>
      match e.methods with
      | none => r ++ [Route.pathRoute path none e.handler]
      | some ms => r ++ [Route.pathRoute path (some ms) e.handler]) r

/-- The router `reloadEndpoints` builds (lines 114-131): start from a fresh
`mux.NewRouter()` and register every endpoint of the list, in list order. -/
def buildRouter (heap : Nat → Endpoint) (eps : List Nat) : RoutingTable :=
  eps.foldl (fun r e => addEndpointRoutes r (heap e)) []

/-- `DynHttpSrv.reloadEndpoints` (lines 113-133): build a brand-new router from
the whole endpoint list, then `swap` it in.  The second component is the swap
trace: line 132 is the only swap the function performs. -/
def reloadEndpoints (heap : Nat → Endpoint) (dhs : DynHttpSrv) :
    DynHttpSrv × List RoutingTable :=
  let newRouter := buildRouter heap dhs.endpoints
  ({ dhs with router := newRouter }, [newRouter])

/-- `DynHttpSrv.AddEndpoint` (lines 81-95).  Returns the state after the call,
the returned error, and the swap trace of the call. -/
def AddEndpoint (heap : Nat → Endpoint) (dhs : DynHttpSrv) (endpoint : Nat) :
    DynHttpSrv × Option String × List RoutingTable :=
  let pos := findPos dhs.endpoints endpoint
  if pos ≠ -1 then
    (dhs, some "endpoint already added", [])
  else
    let dhs1 := { dhs with endpoints := dhs.endpoints ++ [endpoint] }
    let (dhs2, tr) := reloadEndpoints heap dhs1
    (dhs2, none, tr)

/-- `DynHttpSrv.DelEndpoint` (lines 97-111).  `append(a[0:pos], a[pos+1:]...)`
leaves `take pos ++ drop (pos+1)` in `dhs.Endpoints`. -/
def DelEndpoint (heap : Nat → Endpoint) (dhs : DynHttpSrv) (endpoint : Nat) :
    DynHttpSrv × Option String × List RoutingTable :=
  let pos := findPos dhs.endpoints endpoint
  if pos = -1 then
    (dhs, some "endpoint not found", [])
  else
    let dhs1 := { dhs with
      endpoints := dhs.endpoints.take pos.toNat ++ dhs.endpoints.drop (pos.toNat + 1) }
    let (dhs2, tr) := reloadEndpoints heap dhs1
    (dhs2, none, tr)

/-- Declarative reading of the table-compilation policy for one endpoint: no
paths gives one catch-all prefix route on the root, restricted to the methods
when given; otherwise one route per listed path, all bound to the same
handler, restricted to the methods when given. -/
def endpointRoutesSpec (e : Endpoint) : List Route :=
  match e.paths with
  | none => [Route.preRoute "/" e.methods e.handler]
  | some ps => ps.map (fun p => Route.pathRoute p e.methods e.handler)

/-- Declarative reading of the whole compiled table: the per-endpoint routes
of the entire list, concatenated in list order. -/
def tableSpec (heap : Nat → Endpoint) (eps : List Nat) : RoutingTable :=
  (eps.map (fun e => endpointRoutesSpec (heap e))).flatten

/-- First-match removal, the declarative reading of "removes the first (only)
matching entry". -/
def removeFirst : List Nat → Nat → List Nat
  | [], _ => []
  | x :: xs, e => if x = e then xs else x :: removeFirst xs e

/-- A registry mutation, for reasoning about operation sequences. -/
inductive RegOp where
  | addOp (e : Nat)
  | delOp (e : Nat)

/-- The state transition of one mutation (errors discard nothing: the state
component of the result is the state after the call either way). -/
def applyOp (heap : Nat → Endpoint) (dhs : DynHttpSrv) : RegOp → DynHttpSrv
  | .addOp e => (AddEndpoint heap dhs e).1
  | .delOp e => (DelEndpoint heap dhs e).1

/-- Run a sequence of mutations from the freshly created server. -/
def runOps (heap : Nat → Endpoint) (ops : List RegOp) : DynHttpSrv :=
  ops.foldl (applyOp heap) newSrv

/-!
The second source file of the repository is the same package with every
identifier exported (`SwappableRouter`, `Swap`, `ReloadEndpoints`, ...).  Its
logic is embedded separately below, from that file, so that the two variants
can be compared.
-/

namespace Exported

/-- `SwappableRouter.Swap` of the exported variant (its lines 26-30). -/
def Swap (sr : SwappableRouter) (newRouter : RoutingTable) : SwappableRouter :=
  { sr with router := newRouter }

/-- `SwappableRouter.ServeHTTP` of the exported variant (its lines 32-37). -/
def ServeHTTP (sr : SwappableRouter) (r : Request) : Option Nat :=
  let router := sr.router
  routeTable router r

/-- The `for` loop body of `ReloadEndpoints` (its lines 116-130) for one
endpoint. -/
def addEndpointRoutes (r : RoutingTable) (e : Endpoint) : RoutingTable :=
  match e.paths with
  | none =>
    match e.methods with
    | none => r ++ [Route.preRoute "/" none e.handler]
    | some ms => r ++ [Route.preRoute "/" (some ms) e.handler]
  | some ps =>
    ps.foldl (fun r path =>
      match e.methods with
      | none => r ++ [Route.pathRoute path none e.handler]
      | some ms => r ++ [Route.pathRoute path (some ms) e.handler]) r

/-- The router `ReloadEndpoints` builds (its lines 114-131). -/
def buildRouter (heap : Nat → Endpoint) (eps : List Nat) : RoutingTable :=
  eps.foldl (fun r e => Exported.addEndpointRoutes r (heap e)) []

/-- `DynHttpSrv.ReloadEndpoints` of the exported variant (its lines 113-133). -/
def ReloadEndpoints (heap : Nat → Endpoint) (dhs : DynHttpSrv) :
    DynHttpSrv × List RoutingTable :=
  let newRouter := Exported.buildRouter heap dhs.endpoints
  ({ dhs with router := newRouter }, [newRouter])

/-- `DynHttpSrv.AddEndpoint` of the exported variant (its lines 81-95). -/
def AddEndpoint (heap : Nat → Endpoint) (dhs : DynHttpSrv) (endpoint : Nat) :
    DynHttpSrv × Option String × List RoutingTable :=
  let pos := findPos dhs.endpoints endpoint
  if pos ≠ -1 then
    (dhs, some "endpoint already added", [])
  else
    let dhs1 := { dhs with endpoints := dhs.endpoints ++ [endpoint] }
    let (dhs2, tr) := Exported.ReloadEndpoints heap dhs1
    (dhs2, none, tr)

/-- `DynHttpSrv.DelEndpoint` of the exported variant (its lines 97-111). -/
def DelEndpoint (heap : Nat → Endpoint) (dhs : DynHttpSrv) (endpoint : Nat) :
    DynHttpSrv × Option String × List RoutingTable :=
  let pos := findPos dhs.endpoints endpoint
  if pos = -1 then
    (dhs, some "endpoint not found", [])
  else
    let dhs1 := { dhs with
      endpoints := dhs.endpoints.take pos.toNat ++ dhs.endpoints.drop (pos.toNat + 1) }
    let (dhs2, tr) := Exported.ReloadEndpoints heap dhs1
    (dhs2, none, tr)

end Exported

/-!  Helper lemmas about the embedded operations. -/

/-- The index of the first occurrence of `e` in a list, if any: the
declarative counterpart of the `pos` computed by the search loops. -/
def firstIdx : List Nat → Nat → Option Nat
  | [], _ => none
  | x :: xs, e => if x = e then some 0 else (firstIdx xs e).map (· + 1)

lemma findPosAux_of_not_mem (l : List Nat) (e : Nat) (h : e ∉ l) :
    ∀ i, findPosAux l e i = -1 := by
  induction l with
  | nil => intro i; rfl
  | cons x xs ih =>
    intro i
    simp only [List.mem_cons, not_or] at h
    obtain ⟨h1, h2⟩ := h
    simp only [findPosAux, if_neg (Ne.symm h1)]
    exact ih h2 (i + 1)

lemma findPosAux_of_firstIdx (l : List Nat) (e : Nat) :
    ∀ i p, firstIdx l e = some p → findPosAux l e i = Int.ofNat (i + p) := by
  induction l with
  | nil => intro i p h; exact Option.noConfusion h
  | cons x xs ih =>
    intro i p h
    by_cases hx : x = e
    · simp only [firstIdx, if_pos hx, Option.some.injEq] at h
      subst h
      simp [findPosAux, hx]
    · simp only [firstIdx, if_neg hx, Option.map_eq_some'] at h
      obtain ⟨q, hq, rfl⟩ := h
      simp only [findPosAux, if_neg hx]
      rw [ih (i + 1) q hq]
      congr 1
      omega

lemma firstIdx_eq_none_iff (l : List Nat) (e : Nat) :
    firstIdx l e = none ↔ e ∉ l := by
  induction l with
  | nil => simp [firstIdx]
  | cons x xs ih =>
    by_cases hx : x = e
    · subst hx
      simp [firstIdx]
    · have hne : e ≠ x := fun hh => hx hh.symm
      simp [firstIdx, hx, Option.map_eq_none', ih, List.mem_cons, hne]

lemma firstIdx_of_mem (l : List Nat) (e : Nat) (h : e ∈ l) :
    ∃ p, firstIdx l e = some p := by
  cases hi : firstIdx l e with
  | none => exact absurd h ((firstIdx_eq_none_iff l e).mp hi)
  | some p => exact ⟨p, rfl⟩

lemma findPos_eq_of_firstIdx (l : List Nat) (e : Nat) (p : Nat)
    (h : firstIdx l e = some p) : findPos l e = Int.ofNat p := by
  rw [findPos, findPosAux_of_firstIdx l e 0 p h, Nat.zero_add]

lemma findPos_eq_neg_one_iff (l : List Nat) (e : Nat) :
    findPos l e = -1 ↔ e ∉ l := by
  constructor
  · intro hc hmem
    obtain ⟨p, hp⟩ := firstIdx_of_mem l e hmem
    rw [findPos_eq_of_firstIdx l e p hp] at hc
    exact Int.noConfusion hc
  · intro hmem
    exact findPosAux_of_not_mem l e hmem 0

lemma take_drop_firstIdx (l : List Nat) (e : Nat) :
    ∀ p, firstIdx l e = some p → l.take p ++ l.drop (p + 1) = removeFirst l e := by
  induction l with
  | nil => intro p h; exact Option.noConfusion h
  | cons x xs ih =>
    intro p h
    by_cases hx : x = e
    · simp [firstIdx, hx] at h
      subst h
      simp [removeFirst, hx]
    · simp [firstIdx, hx] at h
      obtain ⟨q, hq, rfl⟩ := h
      simp [removeFirst, hx, List.take_succ_cons, List.drop_succ_cons, ih q hq]

lemma removeFirst_sublist (l : List Nat) (e : Nat) :
    List.Sublist (removeFirst l e) l := by
  induction l with
  | nil => simp [removeFirst]
  | cons x xs ih =>
    by_cases hx : x = e
    · have hr : removeFirst (x :: xs) e = xs := by simp [removeFirst, hx]
      rw [hr]
      exact List.sublist_cons_self x xs
    · simpa [removeFirst, hx] using ih.cons₂ x

lemma removeFirst_append_self (l : List Nat) (e : Nat) (h : e ∉ l) :
    removeFirst (l ++ [e]) e = l := by
  induction l with
  | nil => simp [removeFirst]
  | cons x xs ih =>
    have hx : x ≠ e := fun hx => h (hx ▸ List.mem_cons_self x xs)
    have hxs : e ∉ xs := fun hm => h (List.mem_cons_of_mem x hm)
    simp [removeFirst, hx, ih hxs]

/-- Characterization of `AddEndpoint` when the identity is already present. -/
lemma AddEndpoint_mem (heap : Nat → Endpoint) (dhs : DynHttpSrv) (e : Nat)
    (h : e ∈ dhs.endpoints) :
    AddEndpoint heap dhs e = (dhs, some "endpoint already added", []) := by
  have hpos : findPos dhs.endpoints e ≠ -1 := fun hc =>
    (findPos_eq_neg_one_iff dhs.endpoints e).mp hc h
  simp [AddEndpoint, hpos]

/-- Characterization of `AddEndpoint` when the identity is new. -/
lemma AddEndpoint_not_mem (heap : Nat → Endpoint) (dhs : DynHttpSrv) (e : Nat)
    (h : e ∉ dhs.endpoints) :
    AddEndpoint heap dhs e =
      ({ router := buildRouter heap (dhs.endpoints ++ [e]),
         endpoints := dhs.endpoints ++ [e] },
       none, [buildRouter heap (dhs.endpoints ++ [e])]) := by
  have hpos : findPos dhs.endpoints e = -1 := (findPos_eq_neg_one_iff dhs.endpoints e).mpr h
  simp [AddEndpoint, hpos, reloadEndpoints]

/-- Characterization of `DelEndpoint` when the identity is absent. -/
lemma DelEndpoint_not_mem (heap : Nat → Endpoint) (dhs : DynHttpSrv) (e : Nat)
    (h : e ∉ dhs.endpoints) :
    DelEndpoint heap dhs e = (dhs, some "endpoint not found", []) := by
  have hpos : findPos dhs.endpoints e = -1 := (findPos_eq_neg_one_iff dhs.endpoints e).mpr h
  simp [DelEndpoint, hpos]

/-- Characterization of `DelEndpoint` when the identity is present: the first
occurrence is removed and the table rebuilt. -/
lemma DelEndpoint_mem (heap : Nat → Endpoint) (dhs : DynHttpSrv) (e : Nat)
    (h : e ∈ dhs.endpoints) :
    DelEndpoint heap dhs e =
      ({ router := buildRouter heap (removeFirst dhs.endpoints e),
         endpoints := removeFirst dhs.endpoints e },
       none, [buildRouter heap (removeFirst dhs.endpoints e)]) := by
  obtain ⟨p, hp⟩ := firstIdx_of_mem dhs.endpoints e h
  have hpos : findPos dhs.endpoints e = Int.ofNat p :=
    findPos_eq_of_firstIdx dhs.endpoints e p hp
  have hne : findPos dhs.endpoints e ≠ -1 := by
    rw [hpos]
    exact fun hc => Int.noConfusion hc
  have htn : (findPos dhs.endpoints e).toNat = p := by rw [hpos]; rfl
  have hrm := take_drop_firstIdx dhs.endpoints e p hp
  simp [DelEndpoint, if_neg hne, htn, hrm, reloadEndpoints]

lemma foldl_append_routes (f : String → Route) :
    ∀ (ps : List String) (r : RoutingTable),
      ps.foldl (fun acc p => acc ++ [f p]) r = r ++ ps.map f := by
  intro ps
  induction ps with
  | nil => intro r; simp
  | cons p ps ih =>
    intro r
    simp only [List.foldl_cons, List.map_cons, ih, List.append_assoc, List.singleton_append]

/-- One iteration of the reload loop registers exactly the routes the
compilation policy prescribes for that endpoint, appended in order. -/
lemma addEndpointRoutes_eq (r : RoutingTable) (e : Endpoint) :
    addEndpointRoutes r e = r ++ endpointRoutesSpec e := by
  obtain ⟨ms, ps, h⟩ := e
  cases ps with
  | none => cases ms <;> simp [addEndpointRoutes, endpointRoutesSpec]
  | some ps =>
    cases ms with
    | none =>
      simpa only [addEndpointRoutes, endpointRoutesSpec] using
        foldl_append_routes (fun p => Route.pathRoute p none h) ps r
    | some m =>
      simpa only [addEndpointRoutes, endpointRoutesSpec] using
        foldl_append_routes (fun p => Route.pathRoute p (some m) h) ps r

lemma foldl_addEndpointRoutes (heap : Nat → Endpoint) :
    ∀ (eps : List Nat) (r : RoutingTable),
      eps.foldl (fun acc e => addEndpointRoutes acc (heap e)) r = r ++ tableSpec heap eps := by
  intro eps
  induction eps with
  | nil => intro r; simp [tableSpec]
  | cons x xs ih =>
    intro r
    simp only [List.foldl_cons]
    rw [addEndpointRoutes_eq r (heap x), ih (r ++ endpointRoutesSpec (heap x))]
    simp [tableSpec, List.append_assoc]

/-- The imperative loop of `reloadEndpoints` compiles the declarative table. -/
lemma buildRouter_eq (heap : Nat → Endpoint) (eps : List Nat) :
    buildRouter heap eps = tableSpec heap eps := by
  rw [buildRouter, foldl_addEndpointRoutes heap eps, List.nil_append]

lemma applyOp_nodup (heap : Nat → Endpoint) (dhs : DynHttpSrv) (op : RegOp)
    (h : dhs.endpoints.Nodup) : ((applyOp heap dhs op).endpoints).Nodup := by
  cases op with
  | addOp e =>
    by_cases he : e ∈ dhs.endpoints
    · simpa [applyOp, AddEndpoint_mem heap dhs e he] using h
    · simp [applyOp, AddEndpoint_not_mem heap dhs e he, List.nodup_append, h, he]
  | delOp e =>
    by_cases he : e ∈ dhs.endpoints
    · simp only [applyOp, DelEndpoint_mem heap dhs e he]
      exact List.Nodup.sublist (removeFirst_sublist dhs.endpoints e) h
    · simpa [applyOp, DelEndpoint_not_mem heap dhs e he] using h

/-- A concrete heap for witness statements: every address holds the full
catch-all endpoint with handler 0. -/
def hp0 : Nat → Endpoint :=
  fun _ => { methods := none, paths := none, handler := 0 }

/-- Claim C1: a dispatch interleaved with a `replace` that supersedes
`told` with `tnew` captures exactly one table reference — whichever of the
two was current at its atomic read (`k` counts the swap events that precede
the read) — and its routing outcome is the outcome of that one table:
either entirely `told`'s decision or entirely `tnew`'s, never a mixture or a
torn reference. -/
theorem dispatch_during_replace_single_table (told tnew : RoutingTable) (k : Nat)
    (req : Request) :
    (capturedTable told [tnew] k = told ∨ capturedTable told [tnew] k = tnew) ∧
    (serveHTTP { router := capturedTable told [tnew] k } req = routeTable told req ∨
     serveHTTP { router := capturedTable told [tnew] k } req = routeTable tnew req) := by
  cases k with
  | zero => exact ⟨Or.inl rfl, Or.inl rfl⟩
  | succ n =>
    have h : capturedTable told [tnew] (n + 1) = tnew := by
      simp [capturedTable, tableAfterSwaps]
    rw [h]
    exact ⟨Or.inr rfl, Or.inr rfl⟩

/-- Claim C2: `reloadEndpoints` leaves the endpoint list untouched and
installs, via exactly one `swap`, the table holding — in list order — for
each endpoint either the single root catch-all prefix route (when no paths
are given, carrying the endpoint's method restriction if any) or one route
per listed path bound to that endpoint's handler (again carrying the method
restriction if any). -/
theorem reloadEndpoints_spec (heap : Nat → Endpoint) (dhs : DynHttpSrv) :
    reloadEndpoints heap dhs =
      ({ router := tableSpec heap dhs.endpoints, endpoints := dhs.endpoints },
       [tableSpec heap dhs.endpoints]) := by
  cases dhs
  simp [reloadEndpoints, buildRouter_eq]

/-- Claim C3: adding an endpoint identity that is already present returns the
duplicate-endpoint error, leaves the state (endpoint list and current table)
exactly as it was, and performs no swap — no rebuild is triggered. -/
theorem addEndpoint_duplicate (heap : Nat → Endpoint) (dhs : DynHttpSrv) (e : Nat)
    (h : e ∈ dhs.endpoints) :
    AddEndpoint heap dhs e = (dhs, some "endpoint already added", []) :=
  AddEndpoint_mem heap dhs e h

theorem addEndpoint_duplicate_witness :
    0 ∈ [0] ∧
      AddEndpoint hp0 { router := [], endpoints := [0] } 0 =
        ({ router := [], endpoints := [0] }, some "endpoint already added", []) :=
  ⟨by decide, addEndpoint_duplicate hp0 { router := [], endpoints := [0] } 0 (by decide)⟩

/-- Claim C4: removing an absent identity returns the not-found error, leaves
the state unchanged and performs no swap; removing a present identity removes
the first matching entry and triggers exactly one full rebuild. -/
theorem delEndpoint_cases (heap : Nat → Endpoint) (dhs : DynHttpSrv) (e : Nat) :
    (e ∉ dhs.endpoints →
      DelEndpoint heap dhs e = (dhs, some "endpoint not found", [])) ∧
    (e ∈ dhs.endpoints →
      DelEndpoint heap dhs e =
        ({ router := buildRouter heap (removeFirst dhs.endpoints e),
           endpoints := removeFirst dhs.endpoints e },
         none, [buildRouter heap (removeFirst dhs.endpoints e)])) :=
  ⟨fun h => DelEndpoint_not_mem heap dhs e h, fun h => DelEndpoint_mem heap dhs e h⟩

theorem delEndpoint_cases_witness :
    (0 ∉ ([] : List Nat) ∧
      DelEndpoint hp0 { router := [], endpoints := [] } 0 =
        ({ router := [], endpoints := [] }, some "endpoint not found", [])) ∧
    (1 ∈ [1] ∧
      DelEndpoint hp0 { router := [Route.preRoute "/" none 0], endpoints := [1] } 1 =
        ({ router := buildRouter hp0 (removeFirst [1] 1),
           endpoints := removeFirst [1] 1 },
         none, [buildRouter hp0 (removeFirst [1] 1)])) :=
  ⟨⟨by decide, (delEndpoint_cases hp0 { router := [], endpoints := [] } 0).1 (by decide)⟩,
   ⟨by decide,
    (delEndpoint_cases hp0 { router := [Route.preRoute "/" none 0], endpoints := [1] } 1).2
      (by decide)⟩⟩

/-- Claim C5: adding a not-yet-registered identity succeeds (no error), the
new endpoint list is the old one with the endpoint appended at the end, and
exactly one full rebuild is triggered (one swap, of the table compiled from
the appended list). -/
theorem addEndpoint_appends (heap : Nat → Endpoint) (dhs : DynHttpSrv) (e : Nat)
    (h : e ∉ dhs.endpoints) :
    AddEndpoint heap dhs e =
      ({ router := buildRouter heap (dhs.endpoints ++ [e]),
         endpoints := dhs.endpoints ++ [e] },
       none, [buildRouter heap (dhs.endpoints ++ [e])]) :=
  AddEndpoint_not_mem heap dhs e h

theorem addEndpoint_appends_witness :
    0 ∉ ([] : List Nat) ∧
      AddEndpoint hp0 newSrv 0 =
        ({ router := buildRouter hp0 ([] ++ [0]), endpoints := [] ++ [0] },
         none, [buildRouter hp0 ([] ++ [0])]) :=
  ⟨by decide, addEndpoint_appends hp0 newSrv 0 (by decide)⟩

/-- Claim C6: for an endpoint not registered in `dhs`, adding it and then
removing it restores the state exactly (given the standing invariant that the
installed table is the one compiled from the current list), so the table
rebuilt by the remove routes every request exactly as the table in effect
before the add. -/
theorem add_then_remove_roundtrip (heap : Nat → Endpoint) (dhs : DynHttpSrv) (e : Nat)
    (hmem : e ∉ dhs.endpoints) (hsync : dhs.router = buildRouter heap dhs.endpoints) :
    (DelEndpoint heap (AddEndpoint heap dhs e).1 e).1 = dhs ∧
    ∀ req, routeTable (DelEndpoint heap (AddEndpoint heap dhs e).1 e).1.router req =
      routeTable dhs.router req := by
  have hadd := AddEndpoint_not_mem heap dhs e hmem
  have hdel := DelEndpoint_mem heap
      { router := buildRouter heap (dhs.endpoints ++ [e]),
        endpoints := dhs.endpoints ++ [e] } e (by simp)
  have hrm : removeFirst (dhs.endpoints ++ [e]) e = dhs.endpoints :=
    removeFirst_append_self dhs.endpoints e hmem
  have hstate : (DelEndpoint heap (AddEndpoint heap dhs e).1 e).1 = dhs := by
    rw [hadd]
    simp only [hdel, hrm, ← hsync]
  exact ⟨hstate, fun req => by rw [hstate]⟩

theorem add_then_remove_roundtrip_witness :
    (0 ∉ newSrv.endpoints ∧ newSrv.router = buildRouter hp0 newSrv.endpoints) ∧
    (DelEndpoint hp0 (AddEndpoint hp0 newSrv 0).1 0).1 = newSrv :=
  ⟨⟨by decide, rfl⟩, (add_then_remove_roundtrip hp0 newSrv 0 (by decide) rfl).1⟩

/-- Claim C7: along every sequence of add/remove operations from the fresh
server, the endpoint list never holds the same identity twice: every add and
every remove preserves the no-duplicate invariant. -/
theorem endpoints_nodup_invariant (heap : Nat → Endpoint) (ops : List RegOp) :
    ((runOps heap ops).endpoints).Nodup := by
  have general : ∀ (l : List RegOp) (dhs : DynHttpSrv), dhs.endpoints.Nodup →
      ((l.foldl (applyOp heap) dhs).endpoints).Nodup := by
    intro l
    induction l with
    | nil => intro dhs h; exact h
    | cons op l ih => intro dhs h; exact ih _ (applyOp_nodup heap dhs op h)
  exact general ops newSrv (by simp [newSrv])

/-- Claim C8: `ServeHTTP` reads the current table reference exactly once and
forwards the unmodified request to that table's matching logic: its outcome
is `routeTable` of the single captured reference and the request as given,
and replacing every reading of the reference after the first by arbitrary
junk tables does not change the outcome — nothing but the one read and the
request is consulted. -/
theorem serveHTTP_single_read (sr : SwappableRouter) (reads junk : Nat → RoutingTable)
    (req : Request) :
    serveHTTP sr req = routeTable sr.router req ∧
    serveHTTPReads reads req = routeTable (reads 0) req ∧
    serveHTTPReads (fun i => if i = 0 then reads 0 else junk i) req =
      serveHTTPReads reads req := by
  refine ⟨rfl, rfl, ?_⟩
  simp [serveHTTPReads]

/-- Claim C9: the exported-visibility copy of the implementation is
observationally equivalent to the unexported one: on every input, `Swap`,
`ServeHTTP`, `AddEndpoint`, `DelEndpoint` and `ReloadEndpoints` of the second
file produce exactly the results and state transitions of their counterparts
in the first. -/
theorem exported_variant_equiv (heap : Nat → Endpoint) (dhs : DynHttpSrv) (e : Nat)
    (sr : SwappableRouter) (nr : RoutingTable) (req : Request) :
    Exported.AddEndpoint heap dhs e = AddEndpoint heap dhs e ∧
    Exported.DelEndpoint heap dhs e = DelEndpoint heap dhs e ∧
    Exported.ReloadEndpoints heap dhs = reloadEndpoints heap dhs ∧
    Exported.Swap sr nr = swap sr nr ∧
    Exported.ServeHTTP sr req = serveHTTP sr req :=
  ⟨rfl, rfl, rfl, rfl, rfl⟩

/-- Claim C10: the catch-all versus per-path branch of the reload loop is
decided solely by the `Paths` field being nil: a nil `Paths` yields the root
catch-all route, a present `Paths` yields exactly one route per listed path —
so a present-but-empty `Paths` registers no routes at all for that
endpoint. -/
theorem empty_paths_no_routes (r : RoutingTable) (m : Option (List String)) (h : Nat)
    (ps : List String) :
    addEndpointRoutes r { methods := m, paths := some [], handler := h } = r ∧
    addEndpointRoutes r { methods := m, paths := none, handler := h } =
      r ++ [Route.preRoute "/" m h] ∧
    addEndpointRoutes r { methods := m, paths := some ps, handler := h } =
      r ++ ps.map (fun p => Route.pathRoute p m h) := by
  refine ⟨?_, ?_, ?_⟩ <;> simp [addEndpointRoutes_eq, endpointRoutesSpec]
